import Mathlib

/-!
Verification development for the `splitpdf` repository.

The repository has two scripts:
* `split_pdf.py` — splits a PDF into parts bounded by a byte ceiling, using
  trial serialization and single-step rollback (`split_pdf`, `remove_last_page`,
  `bytes_for_writer`);
* `compresspdf.py` — a thin dispatcher to one of two compression backends
  (`find_ghostscript`, `compress_with_ghostscript`).

We embed the splitting algorithm shallowly.  A `Page` is opaque (a type
parameter `α`); a writer is its list of pages; the deterministic serializer is
abstracted as a size function `sz : List α → Nat` giving the byte length of
`bytes_for_writer` on a writer holding those pages (PyPDF2's `PdfWriter.write`
is deterministic for a fixed page sequence, which is the assumption every spec
property states).  Writing a part file is modelled by appending a `Part` record
(the filename index `N` of `{base_name}_part{N}.pdf` plus the page list) to the
emission list.  `max_bytes = int(max_mb * 1024 * 1024)` is a Python int that
can be zero or negative, hence `maxBytes : Int` compared against the `Nat`
byte size via coercion.
-/

namespace SplitPdf

/-- A part written to disk: the numeric suffix `N` used in the output filename
`{base_name}_part{N}.pdf`, and the pages serialized into the file. -/
structure Part (α : Type) where
  index : Nat
  pages : List α
deriving DecidableEq, Repr

/-- The loop state of `split_pdf` (src/split_pdf.py lines 38–39): the next part
number, the pages of the current `PdfWriter`, and the parts written so far. -/
structure SplitState (α : Type) where
  partIndex : Nat
  writer : List α
  emitted : List (Part α)
deriving DecidableEq, Repr

/-- Model of `remove_last_page` on a writer that has the modern `remove_page` method
(src/split_pdf.py lines 20–22): `writer.remove_page(-1)` deletes the page at
Python index `-1`, i.e. the last page; on an empty page list that index does
not exist and the call raises, modelled by `none`. -/
def remove_last_page_modern {α : Type} (l : List α) : Option (List α) :=
  if l.isEmpty then none else some l.dropLast

/-- Model of `remove_last_page`, fallback branch for older PyPDF2 without
`remove_page` (src/split_pdf.py lines 24–29): an empty writer is returned
unchanged, otherwise a fresh writer receives every page but the last. -/
def remove_last_page_fallback {α : Type} (l : List α) : List α :=
  if l.length = 0 then l else l.dropLast

/-- The `remove_last_page` function as invoked by the splitting loop.  Both branches of the
Python function produce the page list without its last element (`dropLast`):
the modern branch deletes index `-1`, the fallback copies `writer.pages[:-1]`;
on the empty list the fallback returns it unchanged and `dropLast [] = []`. -/
def remove_last_page {α : Type} (l : List α) : List α :=
  l.dropLast

/-- One iteration of the `for page in reader.pages` loop of `split_pdf`
(src/split_pdf.py lines 41–62): append the page, trial-serialize, and on
overflow (`len(current_bytes) > max_bytes and len(writer.pages) > 1`) roll the
page back, emit the previous part, restart the writer with the page alone, and
emit it immediately as an oversized single-page part when it alone already
exceeds the ceiling. -/
def splitStep {α : Type} (sz : List α → Nat) (maxBytes : Int)
    (s : SplitState α) (page : α) : SplitState α :=
  let writer := s.writer ++ [page]
  let currentBytes := sz writer
  if (currentBytes : Int) > maxBytes ∧ writer.length > 1 then
    let writer1 := remove_last_page writer
    let emitted1 := s.emitted ++ [⟨s.partIndex, writer1⟩]
    let partIndex1 := s.partIndex + 1
    let writer2 := [page]
    let singleBytes := sz writer2
    if (singleBytes : Int) > maxBytes then
      ⟨partIndex1 + 1, [], emitted1 ++ [⟨partIndex1, writer2⟩]⟩
    else
      ⟨partIndex1, writer2, emitted1⟩
  else
    ⟨s.partIndex, writer, s.emitted⟩

/-- The trailing flush of `split_pdf` (src/split_pdf.py lines 64–66): after the
loop, a non-empty writer is written out as one final part. -/
def flushTrailing {α : Type} (s : SplitState α) : List (Part α) :=
  if s.writer.length > 0 then s.emitted ++ [⟨s.partIndex, s.writer⟩]
  else s.emitted

/-- Model of `split_pdf` (src/split_pdf.py lines 32–66), as the sequence of parts it
writes: fold the loop body over the document's pages from `part_index = 1` and
an empty writer, then flush the trailing part. -/
def split_pdf {α : Type} (sz : List α → Nat) (maxBytes : Int)
    (pages : List α) : List (Part α) :=
  flushTrailing (pages.foldl (splitStep sz maxBytes) ⟨1, [], []⟩)

/-- Output filename of a part (src/split_pdf.py lines 49, 59, 65). -/
def partFileName (baseName : String) (n : Nat) : String :=
  baseName ++ "_part" ++ toString n ++ ".pdf"

/-- Loop invariant of `split_pdf`, relating the loop state to the pages
consumed so far (`seen`).  Carries everything claims C1, C2, C4 and C8 need:
every emitted part fits the ceiling or is a single page; the live writer fits
the ceiling or holds at most one page; emitted parts are non-empty; the pages
of the emitted parts followed by the writer's pages are exactly the consumed
pages in order; part numbers are consecutive from 1 and `part_index` is the
next free number. -/
structure GoodState {α : Type} (sz : List α → Nat) (maxBytes : Int)
    (seen : List α) (s : SplitState α) : Prop where
  emittedSize : ∀ p ∈ s.emitted, (sz p.pages : Int) ≤ maxBytes ∨ p.pages.length = 1
  writerSize : (sz s.writer : Int) ≤ maxBytes ∨ s.writer.length ≤ 1
  emittedNonempty : ∀ p ∈ s.emitted, p.pages ≠ []
  complete : (s.emitted.map Part.pages).flatten ++ s.writer = seen
  indices : s.emitted.map Part.index = List.range' 1 s.emitted.length
  nextIndex : s.partIndex = 1 + s.emitted.length

/-- The partition `split_pdf` produces when `max_bytes ≤ 0` and every
non-empty page sequence serializes to at least one byte: every prefix of two
or more pages overflows, so each page ends up alone in its own part, numbered
consecutively from `i`. -/
def soloParts {α : Type} (i : Nat) : List α → List (Part α)
  | [] => []
  | p :: ps => ⟨i, [p]⟩ :: soloParts (i + 1) ps

end SplitPdf

namespace CompressPdf

/-- Environment seen by `find_ghostscript` (src/compresspdf.py lines 39–53):
the results of `shutil.which` for the three executable names, and the two
Windows glob searches (`C:/Program Files/gs/**/bin/gswin64c.exe` and
`C:/Program Files (x86)/gs/**/bin/gswin32c.exe`). -/
structure GsEnv where
  whichGs : Option String
  whichGswin64c : Option String
  whichGswin32c : Option String
  glob64 : List String
  glob32 : List String
deriving DecidableEq, Repr

/-- An explicit `--gs-path` override: the path string and whether
`explicit_path.exists()` holds on disk. -/
structure GsPath where
  path : String
  pathExists : Bool
deriving DecidableEq, Repr

/-- Model of `find_ghostscript` (src/compresspdf.py lines 39–53).  An explicit override
is returned when it exists on disk, else the search fails immediately; without
an override, the three `shutil.which` lookups are tried left to right, then
the Windows glob candidates, of which `sorted(candidates)[-1]` — their
lexicographic maximum — is taken. -/
def find_ghostscript (env : GsEnv) (explicitPath : Option GsPath) :
    Option String :=
  match explicitPath with
  | some p => if p.pathExists then some p.path else none
  | none =>
    match env.whichGs <|> env.whichGswin64c <|> env.whichGswin32c with
    | some gs => some gs
    | none => (env.glob64 ++ env.glob32).max?

/-- Quality tiers of the compressor CLI. -/
inductive Quality : Type
  | light
  | medium
  | strong
deriving DecidableEq, Repr

/-- Quality-to-`-dPDFSETTINGS` mapping of `compress_with_ghostscript`
(src/compresspdf.py lines 66–71). -/
def pdfSetting : Quality → String
  | .strong => "/screen"
  | .light => "/prepress"
  | .medium => "/ebook"

/-- The single failure of `compress_with_ghostscript`: the
`RuntimeError("Ghostscript not found. ...")` raised when `find_ghostscript`
returns `None` (src/compresspdf.py lines 60–63) — the spec's
`BackendUnavailable`. -/
inductive CompressError : Type
  | backendUnavailable
deriving DecidableEq, Repr

/-- Model of `compress_with_ghostscript` (src/compresspdf.py lines 56–85), up to the
point of invoking the backend.  It either fails with `backendUnavailable`
before anything touches the filesystem — the output file is only ever created
by the Ghostscript process — or reaches `subprocess.run` with the command line
returned in `.ok` (the invocation that would produce `outputPath`). -/
def compress_with_ghostscript (env : GsEnv) (inputPath outputPath : String)
    (quality : Quality) (gsPath : Option GsPath) :
    Except CompressError (List String) :=
  match find_ghostscript env gsPath with
  | none => .error .backendUnavailable
  | some gs =>
    .ok [gs, "-sDEVICE=pdfwrite", "-dCompatibilityLevel=1.4",
      "-dPDFSETTINGS=" ++ pdfSetting quality, "-dNOPAUSE", "-dBATCH",
      "-dQUIET", "-sOutputFile=" ++ outputPath, inputPath]

end CompressPdf

/-- Concrete serializer for witnesses: every page contributes three bytes, so
sizes are additive and positive on non-empty inputs. -/
def szLin (l : List Nat) : Nat := 3 * l.length

/-- Concrete serializer for Scenario B (claim C7): each page serializes to
3 MiB and sizes are additive, so the four-page prefix is the first to exceed
the 10 MiB ceiling. -/
def szScenarioB (l : List Nat) : Nat := 3145728 * l.length

/-- Concrete serializer written differently from `szLin` but extensionally
equal to it, for the determinism witness. -/
def szLinComm (l : List Nat) : Nat := l.length * 3

namespace SplitPdf

/-- The invariant holds at the entry of the loop (`part_index = 1`, fresh
writer, nothing emitted, no page consumed). -/
theorem goodState_init {α : Type} (sz : List α → Nat) (maxBytes : Int) :
    GoodState sz maxBytes [] ⟨1, [], []⟩ := by
  refine ⟨?_, ?_, ?_, ?_, ?_, ?_⟩ <;> simp [List.range']

/-- Appending a part numbered `1 + E.length` to a list of parts numbered
`1..E.length` keeps the numbers consecutive from 1. -/
theorem indices_snoc {α : Type} {E : List (Part α)} {i : Nat}
    (hix : E.map Part.index = List.range' 1 E.length) (hni : i = 1 + E.length)
    (ps : List α) :
    (E ++ [Part.mk i ps]).map Part.index =
      List.range' 1 (E ++ [Part.mk i ps]).length := by
  simp only [List.map_append, List.map_cons, List.map_nil, hix,
    List.length_append, List.length_cons, List.length_nil, Nat.zero_add]
  rw [List.range'_concat]
  simp [hni]

/-- One loop iteration preserves the invariant. -/
theorem splitStep_good {α : Type} {sz : List α → Nat} {maxBytes : Int}
    {seen : List α} {s : SplitState α} (h : GoodState sz maxBytes seen s)
    (page : α) :
    GoodState sz maxBytes (seen ++ [page]) (splitStep sz maxBytes s page) := by
  obtain ⟨hes, hws, hne, hc, hix, hni⟩ := h
  by_cases h1 : (sz (s.writer ++ [page]) : Int) > maxBytes ∧
      (s.writer ++ [page]).length > 1
  · have hw1 : s.writer.length ≥ 1 := by
      have := h1.2; simp at this; omega
    have hwne : s.writer ≠ [] := by
      intro hnil; rw [hnil] at hw1; simp at hw1
    have hwlast : (s.writer ++ [page]).dropLast = s.writer :=
      List.dropLast_concat
    have hwOk : (sz s.writer : Int) ≤ maxBytes ∨ s.writer.length = 1 := by
      rcases hws with hle | hlen
      · exact Or.inl hle
      · exact Or.inr (le_antisymm hlen hw1)
    have hixA := indices_snoc hix hni s.writer
    by_cases h2 : (sz [page] : Int) > maxBytes
    · simp only [splitStep, remove_last_page, if_pos h1, if_pos h2, hwlast]
      have hniA : s.partIndex + 1 =
          1 + (s.emitted ++ [(⟨s.partIndex, s.writer⟩ : Part α)]).length := by
        simp only [List.length_append, List.length_cons, List.length_nil]
        omega
      refine ⟨?_, ?_, ?_, ?_, ?_, ?_⟩
      · intro p hp
        simp only [List.append_assoc, List.mem_append, List.mem_singleton] at hp
        rcases hp with hp | hp | hp
        · exact hes p hp
        · subst hp; exact hwOk
        · subst hp; exact Or.inr rfl
      · simp
      · intro p hp
        simp only [List.append_assoc, List.mem_append, List.mem_singleton] at hp
        rcases hp with hp | hp | hp
        · exact hne p hp
        · subst hp; exact hwne
        · subst hp; simp
      · simp only [List.append_assoc, List.map_append, List.map_cons,
          List.map_nil, List.flatten_append, List.flatten_cons,
          List.flatten_nil, List.append_nil, ← hc]
      · exact indices_snoc hixA hniA [page]
      · show s.partIndex + 1 + 1 = 1 + (_ ++ [(⟨s.partIndex + 1, [page]⟩ : Part α)]).length
        simp only [List.length_append, List.length_cons, List.length_nil]
        omega
    · simp only [splitStep, remove_last_page, if_pos h1, if_neg h2, hwlast]
      refine ⟨?_, ?_, ?_, ?_, ?_, ?_⟩
      · intro p hp
        simp only [List.mem_append, List.mem_singleton] at hp
        rcases hp with hp | hp
        · exact hes p hp
        · subst hp; exact hwOk
      · simp
      · intro p hp
        simp only [List.mem_append, List.mem_singleton] at hp
        rcases hp with hp | hp
        · exact hne p hp
        · subst hp; exact hwne
      · simp only [List.map_append, List.map_cons, List.map_nil,
          List.flatten_append, List.flatten_cons, List.flatten_nil,
          List.append_nil, ← hc]
      · exact hixA
      · show s.partIndex + 1 = 1 + (_ ++ [(⟨s.partIndex, s.writer⟩ : Part α)]).length
        simp only [List.length_append, List.length_cons, List.length_nil]
        omega
  · simp only [splitStep, if_neg h1]
    rcases not_and_or.mp h1 with hsz | hlen
    · refine ⟨hes, Or.inl ?_, hne, ?_, hix, hni⟩
      · show (sz (s.writer ++ [page]) : Int) ≤ maxBytes
        omega
      · show (s.emitted.map Part.pages).flatten ++ (s.writer ++ [page]) = seen ++ [page]
        rw [← hc]; simp
    · refine ⟨hes, Or.inr ?_, hne, ?_, hix, hni⟩
      · show (s.writer ++ [page]).length ≤ 1
        omega
      · show (s.emitted.map Part.pages).flatten ++ (s.writer ++ [page]) = seen ++ [page]
        rw [← hc]; simp

/-- Folding the loop over any page list preserves the invariant. -/
theorem foldl_good {α : Type} {sz : List α → Nat} {maxBytes : Int}
    (ps : List α) :
    ∀ (seen : List α) (s : SplitState α), GoodState sz maxBytes seen s →
      GoodState sz maxBytes (seen ++ ps) (ps.foldl (splitStep sz maxBytes) s) := by
  induction ps with
  | nil => intro seen s h; simpa using h
  | cons p ps ih =>
    intro seen s h
    have h1 := splitStep_good h p
    have h2 := ih (seen ++ [p]) _ h1
    simpa using h2

/-- The invariant at the end of the loop of `split_pdf`. -/
theorem split_final_good {α : Type} (sz : List α → Nat) (maxBytes : Int)
    (pages : List α) :
    GoodState sz maxBytes pages
      (pages.foldl (splitStep sz maxBytes) ⟨1, [], []⟩) := by
  have h := foldl_good pages [] ⟨1, [], []⟩ (goodState_init sz maxBytes)
  simpa using h

/-- C1: for every document and every ceiling `max_bytes > 0`, every part
emitted by `split_pdf` either has serialized size at most `max_bytes` or
consists of exactly one page (the irreducible oversized case), the serializer
being the deterministic size function `sz`. -/
theorem size_bound_or_single {α : Type} (sz : List α → Nat) (maxBytes : Int)
    (hmb : 0 < maxBytes) (pages : List α) (p : Part α)
    (hp : p ∈ split_pdf sz maxBytes pages) :
    (sz p.pages : Int) ≤ maxBytes ∨ p.pages.length = 1 := by
  obtain ⟨hes, hws, hne, hc, hix, hni⟩ := split_final_good sz maxBytes pages
  set s := pages.foldl (splitStep sz maxBytes) ⟨1, [], []⟩ with hs
  by_cases hw : s.writer.length > 0
  · simp only [split_pdf, flushTrailing, ← hs, if_pos hw] at hp
    rcases List.mem_append.mp hp with hmem | hmem
    · exact hes p hmem
    · have hpeq := List.mem_singleton.mp hmem
      subst hpeq
      rcases hws with hle | hlen
      · exact Or.inl hle
      · exact Or.inr (le_antisymm hlen hw)
  · simp only [split_pdf, flushTrailing, ← hs, if_neg hw] at hp
    exact hes p hp

/-- Witness for `size_bound_or_single` on a concrete run: three 3-byte pages
with ceiling 7 give a first part of two pages (6 ≤ 7) and the bound holds for
the first emitted part. -/
theorem size_bound_or_single_witness :
    (0 : Int) < 7 ∧ Part.mk 1 [0, 1] ∈ split_pdf szLin 7 [0, 1, 2] ∧
      ((szLin [0, 1] : Int) ≤ 7 ∨ ([0, 1] : List Nat).length = 1) :=
  ⟨by decide, by decide,
    size_bound_or_single szLin 7 (by decide) [0, 1, 2] ⟨1, [0, 1]⟩ (by decide)⟩

/-- C2: the concatenation of the page sequences of all parts emitted by
`split_pdf`, in emission order, is exactly the input document's page
sequence — no page omitted, duplicated, or reordered. -/
theorem split_complete {α : Type} (sz : List α → Nat) (maxBytes : Int)
    (pages : List α) :
    ((split_pdf sz maxBytes pages).map Part.pages).flatten = pages := by
  obtain ⟨hes, hws, hne, hc, hix, hni⟩ := split_final_good sz maxBytes pages
  set s := pages.foldl (splitStep sz maxBytes) ⟨1, [], []⟩ with hs
  by_cases hw : s.writer.length > 0
  · simp only [split_pdf, flushTrailing, ← hs, if_pos hw, List.map_append,
      List.map_cons, List.map_nil, List.flatten_append, List.flatten_cons,
      List.flatten_nil, List.append_nil]
    exact hc
  · have hwnil : s.writer = [] := List.length_eq_zero.mp (by omega)
    simp only [split_pdf, flushTrailing, ← hs, if_neg hw]
    conv_rhs => rw [← hc]
    rw [hwnil, List.append_nil]

/-- C4: every part emitted by `split_pdf` contains at least one page, and
zero parts are emitted exactly when the document has zero pages. -/
theorem parts_nonempty_iff {α : Type} (sz : List α → Nat) (maxBytes : Int)
    (pages : List α) :
    (∀ p ∈ split_pdf sz maxBytes pages, p.pages ≠ []) ∧
      (split_pdf sz maxBytes pages = [] ↔ pages = []) := by
  obtain ⟨hes, hws, hne, hc, hix, hni⟩ := split_final_good sz maxBytes pages
  set s := pages.foldl (splitStep sz maxBytes) ⟨1, [], []⟩ with hs
  constructor
  · intro p hp
    by_cases hw : s.writer.length > 0
    · simp only [split_pdf, flushTrailing, ← hs, if_pos hw] at hp
      rcases List.mem_append.mp hp with hmem | hmem
      · exact hne p hmem
      · have hpeq := List.mem_singleton.mp hmem
        subst hpeq
        intro hnil
        have hwnil : s.writer = [] := hnil
        rw [hwnil] at hw
        simp at hw
    · simp only [split_pdf, flushTrailing, ← hs, if_neg hw] at hp
      exact hne p hp
  · constructor
    · intro hres
      by_cases hw : s.writer.length > 0
      · simp only [split_pdf, flushTrailing, ← hs, if_pos hw] at hres
        exact absurd hres (List.append_ne_nil_of_right_ne_nil _ (by simp))
      · simp only [split_pdf, flushTrailing, ← hs, if_neg hw] at hres
        have hwnil : s.writer = [] := List.length_eq_zero.mp (by omega)
        rw [← hc, hres, hwnil]
        simp
    · intro hpages
      have hsnil : s = ⟨1, [], []⟩ := by rw [hs, hpages]; rfl
      simp only [split_pdf, flushTrailing, ← hs, hsnil]
      simp

/-- Witness for `parts_nonempty_iff` on a concrete run: a two-page document
with ceiling 10 emits no empty part and a non-empty part list. -/
theorem parts_nonempty_iff_witness :
    split_pdf szLin 10 [0, 1] = [] ↔ ([0, 1] : List Nat) = [] :=
  (parts_nonempty_iff szLin 10 [0, 1]).2

/-- C8: the emitted parts are numbered `1..K` (K = number of parts) in
emission order, consecutively with no gaps, so the written filenames are
`{base_name}_part1.pdf` … `{base_name}_partK.pdf` in emission order. -/
theorem indices_one_to_k {α : Type} (sz : List α → Nat) (maxBytes : Int)
    (pages : List α) (baseName : String) :
    (split_pdf sz maxBytes pages).map Part.index =
        List.range' 1 (split_pdf sz maxBytes pages).length ∧
      (split_pdf sz maxBytes pages).map (fun p => partFileName baseName p.index) =
        (List.range' 1 (split_pdf sz maxBytes pages).length).map
          (partFileName baseName) := by
  obtain ⟨hes, hws, hne, hc, hix, hni⟩ := split_final_good sz maxBytes pages
  set s := pages.foldl (splitStep sz maxBytes) ⟨1, [], []⟩ with hs
  have hmain : (split_pdf sz maxBytes pages).map Part.index =
      List.range' 1 (split_pdf sz maxBytes pages).length := by
    by_cases hw : s.writer.length > 0
    · simp only [split_pdf, flushTrailing, ← hs, if_pos hw]
      exact indices_snoc hix hni _
    · simp only [split_pdf, flushTrailing, ← hs, if_neg hw]
      exact hix
  refine ⟨hmain, ?_⟩
  have : (split_pdf sz maxBytes pages).map (fun p => partFileName baseName p.index) =
      ((split_pdf sz maxBytes pages).map Part.index).map (partFileName baseName) := by
    rw [List.map_map]
    rfl
  rw [this, hmain]

/-- C5: two runs of `split_pdf` on the same document and ceiling, with
(extensionally) the same deterministic serializer, produce the identical
partition — the same parts, hence the same per-part page counts and page
groupings. -/
theorem split_deterministic {α : Type} (sz1 sz2 : List α → Nat)
    (maxBytes : Int) (pages : List α) (h : ∀ l, sz1 l = sz2 l) :
    split_pdf sz1 maxBytes pages = split_pdf sz2 maxBytes pages ∧
      (split_pdf sz1 maxBytes pages).map (fun p => p.pages.length) =
        (split_pdf sz2 maxBytes pages).map (fun p => p.pages.length) := by
  have hsz : sz1 = sz2 := funext h
  subst hsz
  exact ⟨rfl, rfl⟩

/-- Witness for `split_deterministic`: the two syntactically different but
extensionally equal serializers `szLin` and `szLinComm` on a concrete
three-page document and ceiling 7. -/
theorem split_deterministic_witness :
    split_pdf szLin 7 [0, 1, 2] = split_pdf szLinComm 7 [0, 1, 2] :=
  (split_deterministic szLin szLinComm 7 [0, 1, 2]
    (fun l => by simp [szLin, szLinComm, Nat.mul_comm])).1

/-- C6: overflow handling (rollback and part emission) in the loop body is
triggered only when the trial-serialized size is strictly greater than
`max_bytes`: if the grown writer's size is ≤ `max_bytes` — in particular when
it is exactly equal — the page is accepted and kept, nothing is emitted; and
whenever the loop body emits anything, the trial size was strictly greater
than `max_bytes`. -/
theorem overflow_strict {α : Type} (sz : List α → Nat) (maxBytes : Int)
    (s : SplitState α) (page : α) :
    ((sz (s.writer ++ [page]) : Int) ≤ maxBytes →
        splitStep sz maxBytes s page =
          ⟨s.partIndex, s.writer ++ [page], s.emitted⟩) ∧
      ((splitStep sz maxBytes s page).emitted ≠ s.emitted →
        (sz (s.writer ++ [page]) : Int) > maxBytes) := by
  constructor
  · intro hle
    have hnc : ¬((sz (s.writer ++ [page]) : Int) > maxBytes ∧
        (s.writer ++ [page]).length > 1) := by
      intro hcon
      exact absurd hcon.1 (not_lt.mpr hle)
    simp only [splitStep, if_neg hnc]
  · intro hch
    by_contra hnot
    apply hch
    have hnc : ¬((sz (s.writer ++ [page]) : Int) > maxBytes ∧
        (s.writer ++ [page]).length > 1) := fun hcon => hnot hcon.1
    simp only [splitStep, if_neg hnc]

/-- Witness for `overflow_strict`: with 3-byte pages and ceiling 9, the state
holding two pages grows to exactly 9 = ceiling bytes at the third page, and
the page is accepted with no emission. -/
theorem overflow_strict_witness :
    splitStep szLin 9 ⟨1, [0, 1], []⟩ 2 = ⟨1, [0, 1, 2], []⟩ :=
  (overflow_strict szLin 9 ⟨1, [0, 1], []⟩ 2).1 (by decide)

/-- C7, Scenario B: five pages of 3 MiB each under a 10 MiB ceiling
(`int(10.0 * 1024 * 1024) = 10485760`); the serialized prefix first exceeds
the ceiling at page 4, so `split_pdf` emits exactly two parts: pages 1–3
(single rollback at page 4) and pages 4–5. -/
theorem scenario_b :
    split_pdf szScenarioB 10485760 [1, 2, 3, 4, 5] =
      [⟨1, [1, 2, 3]⟩, ⟨2, [4, 5]⟩] := by
  decide

/-- C3 counterexample: `split_pdf` does not validate the ceiling.  With
`max_bytes = 0 ≤ 0` and 3-byte pages, a two-page document does not fail with
any `InvalidCeiling` error: the run completes and writes two output files
(`..._part1.pdf`, `..._part2.pdf`), contradicting the claim that no files are
written. -/
theorem invalid_ceiling_counterexample :
    split_pdf szLin 0 [0, 1] = [⟨1, [0]⟩, ⟨2, [1]⟩] ∧
      split_pdf szLin 0 [0, 1] ≠ [] := by
  decide

/-- Folding the loop from a fresh writer under a non-positive ceiling, when
every non-empty page sequence serializes to at least one byte: every two-page
writer overflows and the tipped-over page also overflows alone, so the run
degenerates into one single-page part per page, numbered consecutively. -/
theorem foldl_solo {α : Type} {sz : List α → Nat} {maxBytes : Int}
    (hmb : maxBytes ≤ 0) (hsz : ∀ l : List α, l ≠ [] → 0 < sz l) :
    ∀ (n : Nat) (ps : List α), ps.length ≤ n → ∀ (i : Nat) (E : List (Part α)),
      flushTrailing (ps.foldl (splitStep sz maxBytes) ⟨i, [], E⟩) =
        E ++ soloParts i ps := by
  intro n
  induction n with
  | zero =>
    intro ps hps i E
    have hnil : ps = [] := List.length_eq_zero.mp (Nat.le_zero.mp hps)
    subst hnil
    simp [flushTrailing, soloParts]
  | succ n ih =>
    intro ps hps i E
    match ps with
    | [] => simp [flushTrailing, soloParts]
    | [p] =>
      have hstep : splitStep sz maxBytes ⟨i, [], E⟩ p = ⟨i, [p], E⟩ := by
        have hnc : ¬((sz (([] : List α) ++ [p]) : Int) > maxBytes ∧
            (([] : List α) ++ [p]).length > 1) := by
          intro hcon
          have := hcon.2
          simp at this
        simp only [splitStep, if_neg hnc]
        simp
      simp only [List.foldl_cons, List.foldl_nil, hstep]
      simp [flushTrailing, soloParts]
    | p :: q :: rest =>
      have hstep1 : splitStep sz maxBytes ⟨i, [], E⟩ p = ⟨i, [p], E⟩ := by
        have hnc : ¬((sz (([] : List α) ++ [p]) : Int) > maxBytes ∧
            (([] : List α) ++ [p]).length > 1) := by
          intro hcon
          have := hcon.2
          simp at this
        simp only [splitStep, if_neg hnc]
        simp
      have hover : (sz (([p] : List α) ++ [q]) : Int) > maxBytes ∧
          (([p] : List α) ++ [q]).length > 1 := by
        constructor
        · have := hsz ([p] ++ [q]) (by simp)
          omega
        · simp
      have hsolo : (sz ([q] : List α) : Int) > maxBytes := by
        have := hsz [q] (by simp)
        omega
      have hstep2 : splitStep sz maxBytes ⟨i, [p], E⟩ q =
          ⟨i + 1 + 1, [],
            (E ++ [Part.mk i (([p] : List α) ++ [q]).dropLast]) ++
              [Part.mk (i + 1) [q]]⟩ := by
        simp only [splitStep, remove_last_page, if_pos hover, if_pos hsolo]
      have hdrop : (([p] : List α) ++ [q]).dropLast = [p] := List.dropLast_concat
      rw [List.foldl_cons, hstep1, List.foldl_cons, hstep2]
      have hlen : rest.length ≤ n := by
        simp only [List.length_cons] at hps
        omega
      rw [ih rest hlen (i + 1 + 1) ((E ++ [Part.mk i (([p] : List α) ++ [q]).dropLast]) ++ [Part.mk (i + 1) [q]])]
      rw [hdrop]
      simp [soloParts, List.append_assoc]

/-- C3 as amended: `split_pdf` performs no validation of the ceiling and
raises no error; when `max_bytes ≤ 0` (every non-empty page sequence having
positive serialized size), the run still writes output files — one
single-page part per page, numbered `1..N`. -/
theorem nonpositive_ceiling_solo {α : Type} (sz : List α → Nat)
    (maxBytes : Int) (pages : List α) (hmb : maxBytes ≤ 0)
    (hsz : ∀ l : List α, l ≠ [] → 0 < sz l) :
    split_pdf sz maxBytes pages = soloParts 1 pages := by
  have h := foldl_solo hmb hsz pages.length pages le_rfl 1 []
  simpa [split_pdf] using h

/-- Witness for `nonpositive_ceiling_solo`: ceiling 0 and three 3-byte pages
give three single-page parts. -/
theorem nonpositive_ceiling_solo_witness :
    split_pdf szLin 0 [0, 1, 2] = soloParts 1 [0, 1, 2] :=
  nonpositive_ceiling_solo szLin 0 [0, 1, 2] (by decide)
    (fun l hl => by
      simp only [szLin]
      cases l with
      | nil => exact absurd rfl hl
      | cons a t => simp)

end SplitPdf

namespace CompressPdf

/-- C9: when the Ghostscript backend is selected, every discovery channel
fails (all three `shutil.which` lookups empty, both Windows glob searches
empty) and no valid explicit path override is given (either none, or one that
does not exist on disk), `compress_with_ghostscript` fails with the
backend-unavailable error before invoking the backend — so the output file,
which only the Ghostscript invocation would create, is not created. -/
theorem backend_unavailable (env : GsEnv) (inputPath outputPath : String)
    (quality : Quality) (gsPath : Option GsPath)
    (hgs : env.whichGs = none) (h64 : env.whichGswin64c = none)
    (h32 : env.whichGswin32c = none) (hg64 : env.glob64 = [])
    (hg32 : env.glob32 = [])
    (hexp : ∀ p, gsPath = some p → p.pathExists = false) :
    compress_with_ghostscript env inputPath outputPath quality gsPath =
      .error .backendUnavailable := by
  have hfind : find_ghostscript env gsPath = none := by
    cases gsPath with
    | none =>
      simp [find_ghostscript, hgs, h64, h32, hg64, hg32]
    | some p =>
      have hp := hexp p rfl
      simp [find_ghostscript, hp]
  simp [compress_with_ghostscript, hfind]

/-- Witness for `backend_unavailable`: an empty environment with an invalid
explicit override. -/
theorem backend_unavailable_witness :
    compress_with_ghostscript ⟨none, none, none, [], []⟩ "in.pdf" "out.pdf"
      Quality.medium (some ⟨"C:/gs/gswin64c.exe", false⟩) =
      .error .backendUnavailable :=
  backend_unavailable ⟨none, none, none, [], []⟩ "in.pdf" "out.pdf"
    Quality.medium (some ⟨"C:/gs/gswin64c.exe", false⟩) rfl rfl rfl rfl rfl
    (fun p hp => by cases hp; rfl)

end CompressPdf

namespace SplitPdf

/-- C10: `remove_last_page` never fails where the splitter can call it and
removes exactly the final page: on any non-empty writer the modern
`remove_page(-1)` branch succeeds and yields the page sequence without its
final page, and the fallback branch yields the same; on a writer with zero
pages the fallback branch returns the writer unchanged rather than failing. -/
theorem remove_last_page_safe {α : Type} (l : List α) :
    (l ≠ [] →
        remove_last_page_modern l = some l.dropLast ∧
          remove_last_page_fallback l = l.dropLast ∧
          remove_last_page l = l.dropLast) ∧
      (l = [] → remove_last_page_fallback l = l) := by
  constructor
  · intro hne
    refine ⟨?_, ?_, rfl⟩
    · simp [remove_last_page_modern, hne]
    · have hlen : l.length ≠ 0 := fun h => hne (List.length_eq_zero.mp h)
      simp [remove_last_page_fallback, hlen]
  · intro hnil
    subst hnil
    rfl

/-- Witness for `remove_last_page_safe` at a concrete three-page writer. -/
theorem remove_last_page_safe_witness :
    remove_last_page_modern [0, 1, 2] = some [0, 1] ∧
      remove_last_page_fallback ([] : List Nat) = [] :=
  ⟨((remove_last_page_safe [0, 1, 2]).1 (by decide)).1,
    (remove_last_page_safe ([] : List Nat)).2 rfl⟩

end SplitPdf
